import Mathlib

/-!
Verification of the tabular analysis engine of the Automation-impact-analyser
repository (`src/server.js`): the type inferrer (`inferDataTypes`), the numeric
statistics engine (`calculateNumericStats`) and the analysis orchestrator
(`analyzeCSV` / `analyzeExcel`), shallowly embedded in Lean.

JavaScript numbers are modelled as an idealised numeric type with exact
rational finite values plus the three non-finite values `NaN`, `+Infinity`
and `-Infinity`; the claims under verification never probe floating-point
rounding, only parsing, ordering, selection and exactly-representable
arithmetic.
-/

deriving instance DecidableEq for Except

namespace AIA

/-- Model of a JavaScript number: `NaN`, the two infinities, or a finite
value (idealised as an exact rational). -/
inductive JSNum where
  | nan
  | negInf
  | posInf
  | fin (q : ℚ)
deriving DecidableEq

namespace JSNum

/-- The JS `isNaN` test on an already-converted number. -/
def isNaN : JSNum → Bool
  | .nan => true
  | _ => false

/-- The JS finiteness test on an already-converted number (`Number.isFinite`):
false for `NaN` and for both infinities. -/
def isFinite : JSNum → Bool
  | .fin _ => true
  | _ => false

/-- Rank embedding used only to transport a linear order onto `JSNum`.
`NaN` is placed at the bottom; this matches the comparator
`(a, b) => a - b` of `server.js` line 141 on every NaN-free list (the only
lists the code ever sorts, since `NaN` is filtered out on line 129). -/
def rank : JSNum → Lex (ℕ × ℚ)
  | .nan => toLex (1, 0)
  | .negInf => toLex (2, 0)
  | .fin q => toLex (3, q)
  | .posInf => toLex (4, 0)

theorem rank_injective : Function.Injective rank := by
  intro a b h
  cases a <;> cases b <;> simp_all [rank, toLex_inj]

instance : LinearOrder JSNum := LinearOrder.lift' rank rank_injective

theorem le_def (a b : JSNum) : a ≤ b ↔ a.rank ≤ b.rank := Iff.rfl

theorem fin_le_fin {q r : ℚ} : (fin q ≤ fin r) ↔ q ≤ r := by
  rw [le_def]
  simp [rank, Prod.Lex.le_iff]

theorem le_posInf (a : JSNum) : a ≤ posInf := by
  rw [le_def]
  cases a <;> simp [rank, Prod.Lex.le_iff]

theorem le_negInf_iff {a : JSNum} : a ≤ negInf ↔ a = nan ∨ a = negInf := by
  rw [le_def]
  cases a <;> simp [rank, Prod.Lex.le_iff]

/-- JS addition (`(a, b) => a + b` in the `reduce` calls of
`calculateNumericStats`): `NaN` is absorbing, opposite infinities give `NaN`,
an infinity otherwise dominates, finite values add exactly. -/
def add : JSNum → JSNum → JSNum
  | nan, _ => nan
  | _, nan => nan
  | posInf, negInf => nan
  | negInf, posInf => nan
  | posInf, _ => posInf
  | _, posInf => posInf
  | negInf, _ => negInf
  | _, negInf => negInf
  | fin a, fin b => fin (a + b)

/-- Division of a JS number by a JS array length (`values.reduce(..) /
values.length` on line 134 of `server.js`; the code only reaches it with a
positive length). -/
def divLen (x : JSNum) (n : ℕ) : JSNum :=
  match x with
  | nan => nan
  | posInf => if n = 0 then nan else posInf
  | negInf => if n = 0 then nan else negInf
  | fin q =>
    if n = 0 then (if q > 0 then posInf else if q < 0 then negInf else nan)
    else fin (q / n)

/-- `Math.min` of two values: `NaN` if either argument is `NaN`, otherwise
the smaller argument. -/
def min2 (a b : JSNum) : JSNum :=
  if a.isNaN || b.isNaN then nan else if a ≤ b then a else b

/-- `Math.max` of two values: `NaN` if either argument is `NaN`, otherwise
the larger argument. -/
def max2 (a b : JSNum) : JSNum :=
  if a.isNaN || b.isNaN then nan else if a ≤ b then b else a

end JSNum

/-! ### Models of the JavaScript string-to-number builtins

`server.js` relies on three platform builtins: `parseFloat` (lines 111 and
129), the `Number` coercion performed by the global `isFinite` (line 111)
and `Date.parse` (line 115).  They are modelled here on exact rationals.
-/

/-- The ASCII whitespace characters the JS numeric builtins skip. -/
def jsWhitespace (c : Char) : Bool :=
  c = ' ' || c = '\t' || c = '\n' || c = '\r' || c = '\x0b' || c = '\x0c'

/-- Split an optional leading sign; the boolean is true for a minus sign. -/
def splitSign : List Char → Bool × List Char
  | '-' :: rest => (true, rest)
  | '+' :: rest => (false, rest)
  | cs => (false, cs)

/-- Value of a list of decimal digits. -/
def decDigits (ds : List Char) : ℕ :=
  ds.foldl (fun a c => 10 * a + (c.toNat - 48)) 0

/-- Longest unsigned decimal-literal prefix of a character list, as in the
JS `StrDecimalLiteral` grammar without sign and without `Infinity`:
`digits [. digits] [e|E [sign] digits]`, where at least one digit must be
present around the decimal point and a trailing exponent marker without
digits is not consumed.  Returns the exact value and the unconsumed rest,
or `none` when no digit is found. -/
def parseDecimal (cs : List Char) : Option (ℚ × List Char) :=
  let p1 := cs.span Char.isDigit
  let d1 := p1.1
  let p2 := match p1.2 with
    | '.' :: t => t.span Char.isDigit
    | _ => (([] : List Char), p1.2)
  let d2 := p2.1
  let r2 := p2.2
  if d1.isEmpty && d2.isEmpty then none
  else
    let mant : ℚ :=
      if d2.isEmpty then (decDigits d1 : ℚ)
      else (decDigits (d1 ++ d2) : ℚ) / ((10 : ℚ) ^ d2.length)
    match r2 with
    | c :: t =>
      if c = 'e' || c = 'E' then
        let s := splitSign t
        let pe := s.2.span Char.isDigit
        if pe.1.isEmpty then some (mant, r2)
        else
          let e := decDigits pe.1
          some ((if s.1 then mant / (10 : ℚ) ^ e else mant * (10 : ℚ) ^ e), pe.2)
      else some (mant, r2)
    | [] => some (mant, [])

/-- Model of the JS builtin `parseFloat` on a string: skip leading
whitespace, read an optional sign, accept a literal `Infinity`, otherwise
take the longest decimal-literal prefix; `NaN` when nothing parses.
Trailing garbage is ignored. -/
def parseFloatStr (s : String) : JSNum :=
  let cs := s.toList.dropWhile jsWhitespace
  let sg := splitSign cs
  if ("Infinity".toList).isPrefixOf sg.2 then
    (if sg.1 then .negInf else .posInf)
  else
    match parseDecimal sg.2 with
    | none => .nan
    | some (q, _) => .fin (if sg.1 then -q else q)

/-- Digit value in a given radix, `none` when the character is not a digit
of that radix. -/
def radixDigit (r : ℕ) (c : Char) : Option ℕ :=
  let v :=
    if c.isDigit then some (c.toNat - 48)
    else if 'a' ≤ c ∧ c ≤ 'f' then some (c.toNat - 87)
    else if 'A' ≤ c ∧ c ≤ 'F' then some (c.toNat - 55)
    else none
  match v with
  | some n => if n < r then some n else none
  | none => none

/-- Value of a non-empty all-valid digit list in a radix. -/
def radixVal (r : ℕ) : List Char → Option ℕ
  | [] => none
  | ds => ds.foldl (fun acc c =>
      match acc, radixDigit r c with
      | some a, some d => some (r * a + d)
      | _, _ => none) (some 0)

/-- Signed whole-string decimal or `Infinity` case of the JS `Number`
coercion on a trimmed non-empty character list. -/
def numberStrSigned (cs : List Char) : JSNum :=
  let sg := splitSign cs
  if sg.2 = "Infinity".toList then (if sg.1 then .negInf else .posInf)
  else
    match parseDecimal sg.2 with
    | some (q, []) => .fin (if sg.1 then -q else q)
    | _ => .nan

/-- Model of the JS `Number` coercion on a string (as performed by the
global `isFinite` on line 111 of `server.js`): trim whitespace on both
ends, the empty string is `0`, a `0x`/`0o`/`0b` radix literal is accepted
without sign, otherwise an optional sign followed by `Infinity` or by a
decimal literal that must consume the whole string; anything else is
`NaN`. -/
def numberStr (s : String) : JSNum :=
  let cs := ((s.toList.dropWhile jsWhitespace).reverse.dropWhile jsWhitespace).reverse
  match cs with
  | [] => .fin 0
  | '0' :: x :: rest =>
    if x = 'x' || x = 'X' then
      match radixVal 16 rest with
      | some n => .fin n
      | none => .nan
    else if x = 'o' || x = 'O' then
      match radixVal 8 rest with
      | some n => .fin n
      | none => .nan
    else if x = 'b' || x = 'B' then
      match radixVal 2 rest with
      | some n => .fin n
      | none => .nan
    else numberStrSigned cs
  | _ => numberStrSigned cs

/-- Days of a month in the proleptic Gregorian calendar used by JS dates. -/
def daysInMonth (y m : ℕ) : ℕ :=
  if m = 2 then
    (if y % 4 = 0 ∧ (y % 100 ≠ 0 ∨ y % 400 = 0) then 29 else 28)
  else if m = 4 ∨ m = 6 ∨ m = 9 ∨ m = 11 then 30
  else 31

/-- Model of the validity test `!isNaN(Date.parse(s))` for the JS
`Date.parse` builtin (line 115 of `server.js`), restricted to ISO
`YYYY-MM-DD` date-only strings with in-range month and day; the additional
engine-specific fallback formats real engines accept are modelled as
unparseable.  Every string this development evaluates the model on is
either a valid ISO date or a string no engine parses as a date. -/
def dateValid (s : String) : Bool :=
  match s.toList with
  | [y1, y2, y3, y4, '-', m1, m2, '-', d1, d2] =>
    if y1.isDigit && y2.isDigit && y3.isDigit && y4.isDigit &&
        m1.isDigit && m2.isDigit && d1.isDigit && d2.isDigit then
      let y := decDigits [y1, y2, y3, y4]
      let m := decDigits [m1, m2]
      let d := decDigits [d1, d2]
      decide (1 ≤ m) && decide (m ≤ 12) && decide (1 ≤ d) &&
        decide (d ≤ daysInMonth y m)
    else false
  | _ => false

/-! ### Cell values -/

/-- A raw JS cell value as produced by the tabular loaders: a string (every
CSV cell), a number, a boolean, `null`, or `undefined` (absent). -/
inductive JSValue where
  | str (s : String)
  | num (n : JSNum)
  | boolean (b : Bool)
  | null
  | undefined
deriving DecidableEq

/-- Model of `parseFloat(v)` on an arbitrary cell value: strings are parsed
directly; a number is first converted by `ToString` and re-parsed, which
gives the number itself back (`"Infinity"`/`"-Infinity"` re-parse to the
infinities, `"NaN"` does not parse, and the shortest round-trip decimal
representation of a finite value re-parses to that value); booleans,
`null` and `undefined` stringify to `"true"`/`"false"`/`"null"`/
`"undefined"`, none of which has a numeric prefix. -/
def parseFloatVal : JSValue → JSNum
  | .str s => parseFloatStr s
  | .num n => n
  | .boolean _ => .nan
  | .null => .nan
  | .undefined => .nan

/-- Model of the global `isFinite(v)` (line 111 of `server.js`): coerce by
`Number` and test finiteness.  `Number(boolean)` is `0` or `1`,
`Number(null)` is `0` (all finite), `Number(undefined)` is `NaN`. -/
def jsIsFinite : JSValue → Bool
  | .str s => (numberStr s).isFinite
  | .num n => n.isFinite
  | .boolean _ => true
  | .null => true
  | .undefined => false

/-! ### Rows and the type inferrer -/

/-- A loaded row: the JS object mapping column names to cell values,
represented as its (insertion-ordered) key/value list.  JS object keys are
unique; rows built by the loaders therefore have `Nodup` keys, which the
orchestrator theorems assume where it matters. -/
def Row := List (String × JSValue)

instance : DecidableEq Row := by
  unfold Row
  infer_instance

/-- Property access `row[column]`: the value stored at the first matching
key, `undefined` when the key is absent. -/
def getCell (row : Row) (c : String) : JSValue :=
  (row.lookup c).getD .undefined

/-- The sample `data[0]?.[column]` of line 108 of `server.js`: the first
row's value for the column, `undefined` when there are no rows. -/
def sample (data : List Row) (c : String) : JSValue :=
  match data with
  | [] => .undefined
  | r :: _ => getCell r c

/-- ASCII lowering of one character. -/
def asciiLower (c : Char) : Char :=
  if 65 ≤ c.toNat ∧ c.toNat ≤ 90 then Char.ofNat (c.toNat + 32) else c

/-- Model of the JS `toLowerCase()` call on line 113 of `server.js`,
restricted to ASCII lowering (full Unicode lowering agrees with it on every
string compared against `"true"`/`"false"`). -/
def toLowerModel (s : String) : List Char :=
  s.toList.map asciiLower

/-- The inferred type of a column. -/
inductive DType where
  | number
  | boolean
  | date
  | string
  | unknown
deriving DecidableEq

/-- The per-column body of `inferDataTypes` (lines 108-119 of `server.js`),
applied to the sampled value.  The `boolean` test calls
`sampleValue.toLowerCase()` whenever the value is not boolean-typed; on a
number (necessarily non-finite at that point, since a finite number was
already classified as `number`) that property access throws a `TypeError`,
modelled as `Except.error`. -/
def inferOne (v : JSValue) : Except Unit DType :=
  if v = .undefined ∨ v = .null then .ok .unknown
  else if ¬(parseFloatVal v).isNaN ∧ jsIsFinite v then .ok .number
  else
    match v with
    | .boolean _ => .ok .boolean
    | .str s =>
      if toLowerModel s = "true".toList ∨ toLowerModel s = "false".toList then
        .ok .boolean
      else if dateValid s then .ok .date
      else .ok .string
    | .num _ => .error ()
    | .null => .ok .unknown
    | .undefined => .ok .unknown

/-- `inferDataTypes(data, columns)` (lines 105-122 of `server.js`): one
entry per column in column order, each computed from the single sample
`data[0]?.[column]`; the `forEach` aborts (the exception propagates and
the partially built object is discarded) as soon as one sample throws. -/
def inferDataTypes (data : List Row) : List String → Except Unit (List (String × DType))
  | [] => .ok []
  | c :: cs =>
    match inferOne (sample data c) with
    | .error e => .error e
    | .ok t =>
      match inferDataTypes data cs with
      | .error e => .error e
      | .ok rest => .ok ((c, t) :: rest)

/-- Type inference as the specification words it (spec §4.2, first match
wins): null-ish is `unknown`; a value that parses as a finite
floating-point number — it both `Number`-coerces to a finite value and has
a `parseFloat`-parseable numeric prefix, the two JS notions of numeric
parsing the code combines — is `number`; a boolean or a case-insensitive
`"true"`/`"false"` string is `boolean`; a string parsing as a valid date is
`date`; anything else is `string`.  This definition is total: it is the
comparison point for the code's `inferOne`, which instead throws on a
non-finite number sample. -/
def specInferType (v : JSValue) : DType :=
  if v = .undefined ∨ v = .null then .unknown
  else if ¬(parseFloatVal v).isNaN ∧ jsIsFinite v then .number
  else if (match v with
           | .boolean _ => true
           | .str s =>
             toLowerModel s = "true".toList || toLowerModel s = "false".toList
           | _ => false) then .boolean
  else if (match v with | .str s => dateValid s | _ => false) then .date
  else .string

/-! ### The numeric statistics engine -/

/-- The collected numeric subset of a column (line 129 of `server.js`):
`data.map(row => parseFloat(row[column])).filter(val => !isNaN(val))`. -/
def collect (data : List Row) (c : String) : List JSNum :=
  (data.map fun r => parseFloatVal (getCell r c)).filter fun v => !v.isNaN

/-- A per-column numeric statistics record. -/
structure StatsRec where
  count : ℕ
  mean : JSNum
  min : JSNum
  max : JSNum
  sum : JSNum
  median : JSNum
  q1 : JSNum
  q3 : JSNum
deriving DecidableEq

/-- The record `calculateNumericStats` builds for a column with a non-empty
numeric subset (lines 131-145 of `server.js`).  `Math.min(...values)` and
`Math.max(...values)` fold the two-argument operations over the values
starting from their neutral arguments `+Infinity` and `-Infinity`.  The
sort on line 141 uses the comparator `(a, b) => a - b`, which on the
NaN-free `values` orders them ascending; it is modelled by `insertionSort`
with the `JSNum` order.  The three percentile indices
`Math.floor(sorted.length / 2)`, `Math.floor(sorted.length * 0.25)` and
`Math.floor(sorted.length * 0.75)` equal `n / 2`, `n / 4` and `3 * n / 4`
in natural-number arithmetic: `0.25` and `0.75` are exact dyadics and a JS
array length is below `2^32`, so the products are exact doubles.  The
indices are in range for non-empty `values`; the `getD` default is never
read. -/
def statsFor (values : List JSNum) : StatsRec :=
  let s := values.foldl JSNum.add (.fin 0)
  let sorted := values.insertionSort (· ≤ ·)
  { count := values.length
    mean := s.divLen values.length
    min := values.foldl JSNum.min2 .posInf
    max := values.foldl JSNum.max2 .negInf
    sum := s
    median := sorted.getD (values.length / 2) .nan
    q1 := sorted.getD (values.length / 4) .nan
    q3 := sorted.getD (3 * values.length / 4) .nan }

/-- `calculateNumericStats(data, columns)` (lines 125-149 of `server.js`):
one entry per column whose collected numeric subset is non-empty, in
column order; columns with an empty subset are skipped entirely. -/
def calculateNumericStats (data : List Row) (columns : List String) :
    List (String × StatsRec) :=
  columns.filterMap fun c =>
    let values := collect data c
    if values.isEmpty then none else some (c, statsFor values)

/-! ### The analysis orchestrator -/

/-- The errors the core can raise: a loader failure (the stream/parse
error rejected through `analyzeCSV`'s promise, or thrown by
`XLSX.readFile`), or the `TypeError` thrown by `inferDataTypes` on a
non-finite number sample. -/
inductive JSErr where
  | load (msg : String)
  | typeErr
deriving DecidableEq

/-- The analysis result object.  The empty-input early return on lines
54-57 (and 82-89) of `server.js` builds an object without the `dataTypes`
and `numericStats` properties; property absence is modelled by `none`. -/
structure AnalysisResult where
  rows : ℕ
  columns : ℕ
  columnNames : List String
  dataTypes : Option (List (String × DType))
  numericStats : Option (List (String × StatsRec))
  preview : List Row
deriving DecidableEq

/-- The common body of `analyzeCSV` (lines 53-70) and `analyzeExcel`
(lines 82-101) of `server.js`, applied to the loaded row sequence: resolve
the reduced empty object for zero rows, otherwise take the column names
from the first row's keys, run the two sub-analyses and assemble the full
result; a `TypeError` escaping `inferDataTypes` aborts the assembly with
no partial result. -/
def analyzeTable (results : List Row) : Except JSErr AnalysisResult :=
  match results with
  | [] => .ok ⟨0, 0, [], none, none, []⟩
  | r0 :: _ =>
    let columnNames := r0.map Prod.fst
    let numericStats := calculateNumericStats results columnNames
    match inferDataTypes results columnNames with
    | .error _ => .error .typeErr
    | .ok dt =>
      .ok ⟨results.length, columnNames.length, columnNames, some dt,
        some numericStats, results.take 5⟩

/-- The full analysis given the loader's outcome: a loader failure is
propagated unchanged (the promise rejection of line 71, or the synchronous
throw of `XLSX.readFile`), a loaded row sequence is analysed. -/
def analyze (loaded : Except String (List Row)) : Except JSErr AnalysisResult :=
  match loaded with
  | .error e => .error (.load e)
  | .ok rows => analyzeTable rows

/-- The cell values on which the sampling step of `inferDataTypes` throws:
exactly the non-finite numbers (`NaN`, `Infinity`, `-Infinity`). -/
def throwsOn : JSValue → Bool
  | .num n => !n.isFinite
  | _ => false

/-! ### Lemmas about the numeric operations -/

namespace JSNum

theorem add_right_comm2 (b a1 a2 : JSNum) :
    (b.add a1).add a2 = (b.add a2).add a1 := by
  cases b <;> cases a1 <;> cases a2 <;> simp [add] <;> ring

instance : RightCommutative add := ⟨add_right_comm2⟩

theorem min2_eq_min {a b : JSNum} (ha : a.isNaN = false) (hb : b.isNaN = false) :
    min2 a b = min a b := by
  simp [min2, ha, hb, min_def]

theorem max2_eq_max {a b : JSNum} (ha : a.isNaN = false) (hb : b.isNaN = false) :
    max2 a b = max a b := by
  simp [max2, ha, hb, max_def]

theorem min_isNaN {a b : JSNum} (ha : a.isNaN = false) (hb : b.isNaN = false) :
    (min a b).isNaN = false := by
  rcases min_choice a b with h | h <;> rw [h] <;> assumption

theorem max_isNaN {a b : JSNum} (ha : a.isNaN = false) (hb : b.isNaN = false) :
    (max a b).isNaN = false := by
  rcases max_choice a b with h | h <;> rw [h] <;> assumption

end JSNum

/-- The fold of `Math.min` over a NaN-free list starting from a NaN-free
accumulator yields either the accumulator or a list element, and is a
lower bound for both. -/
theorem foldl_min2_spec (l : List JSNum) (a : JSNum) (ha : a.isNaN = false)
    (hl : ∀ v ∈ l, v.isNaN = false) :
    (l.foldl JSNum.min2 a = a ∨ l.foldl JSNum.min2 a ∈ l) ∧
      l.foldl JSNum.min2 a ≤ a ∧ ∀ v ∈ l, l.foldl JSNum.min2 a ≤ v := by
  induction l generalizing a with
  | nil => exact ⟨Or.inl rfl, le_refl a, by simp⟩
  | cons x xs ih =>
    have hxh : x.isNaN = false := hl x (List.mem_cons_self x xs)
    have hmin : JSNum.min2 a x = min a x := JSNum.min2_eq_min ha hxh
    have hmn : (JSNum.min2 a x).isNaN = false := by
      rw [hmin]; exact JSNum.min_isNaN ha hxh
    obtain ⟨hmem, hle, hall⟩ :=
      ih (JSNum.min2 a x) hmn (fun v hv => hl v (List.mem_cons_of_mem _ hv))
    rw [List.foldl_cons]
    refine ⟨?_, ?_, ?_⟩
    · rcases hmem with h | h
      · rw [h, hmin]
        rcases min_choice a x with hc | hc
        · exact Or.inl hc
        · exact Or.inr (by rw [hc]; exact List.mem_cons_self x xs)
      · exact Or.inr (List.mem_cons_of_mem x h)
    · exact le_trans hle (by rw [hmin]; exact min_le_left a x)
    · intro v hv
      rcases List.mem_cons.mp hv with rfl | hv2
      · exact le_trans hle (by rw [hmin]; exact min_le_right a v)
      · exact hall v hv2

/-- The fold of `Math.max` over a NaN-free list starting from a NaN-free
accumulator yields either the accumulator or a list element, and is an
upper bound for both. -/
theorem foldl_max2_spec (l : List JSNum) (a : JSNum) (ha : a.isNaN = false)
    (hl : ∀ v ∈ l, v.isNaN = false) :
    (l.foldl JSNum.max2 a = a ∨ l.foldl JSNum.max2 a ∈ l) ∧
      a ≤ l.foldl JSNum.max2 a ∧ ∀ v ∈ l, v ≤ l.foldl JSNum.max2 a := by
  induction l generalizing a with
  | nil => exact ⟨Or.inl rfl, le_refl a, by simp⟩
  | cons x xs ih =>
    have hxh : x.isNaN = false := hl x (List.mem_cons_self x xs)
    have hmax : JSNum.max2 a x = max a x := JSNum.max2_eq_max ha hxh
    have hmn : (JSNum.max2 a x).isNaN = false := by
      rw [hmax]; exact JSNum.max_isNaN ha hxh
    obtain ⟨hmem, hle, hall⟩ :=
      ih (JSNum.max2 a x) hmn (fun v hv => hl v (List.mem_cons_of_mem _ hv))
    rw [List.foldl_cons]
    refine ⟨?_, ?_, ?_⟩
    · rcases hmem with h | h
      · rw [h, hmax]
        rcases max_choice a x with hc | hc
        · exact Or.inl hc
        · exact Or.inr (by rw [hc]; exact List.mem_cons_self x xs)
      · exact Or.inr (List.mem_cons_of_mem x h)
    · exact le_trans (by rw [hmax]; exact le_max_left a x) hle
    · intro v hv
      rcases List.mem_cons.mp hv with rfl | hv2
      · exact le_trans (by rw [hmax]; exact le_max_right a v) hle
      · exact hall v hv2

/-- Every member of a collected numeric subset is non-NaN: the filter on
line 129 of `server.js` removes exactly the NaN parses. -/
theorem collect_not_nan (data : List Row) (c : String) :
    ∀ v ∈ collect data c, v.isNaN = false := by
  intro v hv
  have := List.mem_filter.mp hv
  simpa using this.2

/-- The minimum field source: over a non-empty NaN-free list, the
`Math.min` fold from `+Infinity` is a member and a lower bound. -/
theorem foldl_min2_posInf (values : List JSNum) (hne : values ≠ [])
    (hfree : ∀ v ∈ values, v.isNaN = false) :
    values.foldl JSNum.min2 .posInf ∈ values ∧
      ∀ v ∈ values, values.foldl JSNum.min2 .posInf ≤ v := by
  obtain ⟨hmem, _, hall⟩ := foldl_min2_spec values .posInf rfl hfree
  rcases hmem with h | h
  · obtain ⟨x, xs, rfl⟩ := List.exists_cons_of_ne_nil hne
    have hx : x ∈ x :: xs := List.mem_cons_self x xs
    have hfx : JSNum.posInf ≤ x := by
      have := hall x hx
      rwa [h] at this
    have hpx : x = JSNum.posInf := le_antisymm (JSNum.le_posInf x) hfx
    refine ⟨?_, hall⟩
    rw [h, ← hpx]
    exact hx
  · exact ⟨h, hall⟩

/-- The maximum field source: over a non-empty NaN-free list, the
`Math.max` fold from `-Infinity` is a member and an upper bound. -/
theorem foldl_max2_negInf (values : List JSNum) (hne : values ≠ [])
    (hfree : ∀ v ∈ values, v.isNaN = false) :
    values.foldl JSNum.max2 .negInf ∈ values ∧
      ∀ v ∈ values, v ≤ values.foldl JSNum.max2 .negInf := by
  obtain ⟨hmem, _, hall⟩ := foldl_max2_spec values .negInf rfl hfree
  rcases hmem with h | h
  · obtain ⟨x, xs, rfl⟩ := List.exists_cons_of_ne_nil hne
    have hx : x ∈ x :: xs := List.mem_cons_self x xs
    have hxle : x ≤ JSNum.negInf := by
      have := hall x hx
      rwa [h] at this
    have hpx : x = JSNum.negInf := by
      rcases JSNum.le_negInf_iff.mp hxle with hnan | hinf
      · have hff := hfree x hx
        rw [hnan] at hff
        exact absurd hff (by simp [JSNum.isNaN])
      · exact hinf
    refine ⟨?_, hall⟩
    rw [h, ← hpx]
    exact hx
  · exact ⟨h, hall⟩

/-- Any ascending-sorted permutation of a list equals the embedded sort. -/
theorem sorted_perm_eq_insertionSort (values l : List JSNum)
    (hp : values.Perm l) (hs : l.Sorted (· ≤ ·)) :
    l = values.insertionSort (· ≤ ·) :=
  List.eq_of_perm_of_sorted
    (hp.symm.trans (List.perm_insertionSort (· ≤ ·) values).symm)
    hs (List.sorted_insertionSort (· ≤ ·) values)

/-- Characterisation of a `numericStats` lookup: a key maps to a record
exactly when it is a listed column with a non-empty collected subset, and
the record is the one `statsFor` builds. -/
theorem lookup_calcStats (data : List Row) (cols : List String) (c : String) :
    (calculateNumericStats data cols).lookup c =
      if c ∈ cols ∧ collect data c ≠ [] then some (statsFor (collect data c))
      else none := by
  induction cols with
  | nil => simp [calculateNumericStats]
  | cons c0 cs ih =>
    by_cases hE : collect data c0 = []
    · have h0 : calculateNumericStats data (c0 :: cs) =
          calculateNumericStats data cs := by
        simp [calculateNumericStats, List.filterMap_cons, hE]
      rw [h0, ih]
      by_cases hc : c = c0
      · subst hc
        simp [hE]
      · simp [List.mem_cons, hc]
    · have h0 : calculateNumericStats data (c0 :: cs) =
          (c0, statsFor (collect data c0)) :: calculateNumericStats data cs := by
        simp [calculateNumericStats, List.filterMap_cons, hE]
      rw [h0]
      by_cases hc : c = c0
      · subst hc
        simp [List.lookup, hE]
      · have hbeq : (c == c0) = false := beq_false_of_ne hc
        simp [List.lookup, hbeq, ih, List.mem_cons, hc]

/-! ### Lemmas about the type inferrer -/

/-- On a sample that does not throw, the code's per-column inference agrees
with the specification's total decision procedure. -/
theorem inferOne_eq_spec (v : JSValue) (h : throwsOn v = false) :
    inferOne v = .ok (specInferType v) := by
  cases v with
  | undefined => rfl
  | null => rfl
  | boolean b => rfl
  | num n =>
    have hfin : n.isFinite = true := by simpa [throwsOn] using h
    cases n with
    | fin q => rfl
    | nan => exact absurd hfin (by simp [JSNum.isFinite])
    | negInf => exact absurd hfin (by simp [JSNum.isFinite])
    | posInf => exact absurd hfin (by simp [JSNum.isFinite])
  | str s =>
    simp only [inferOne, specInferType]
    split_ifs <;> first | rfl | simp_all

/-- The per-column inference throws exactly on a non-finite number sample. -/
theorem inferOne_error_iff (v : JSValue) :
    inferOne v = .error () ↔ throwsOn v = true := by
  cases v with
  | undefined => simp [inferOne, throwsOn]
  | null => simp [inferOne, throwsOn]
  | boolean b =>
    simp [inferOne, throwsOn, parseFloatVal, jsIsFinite, JSNum.isNaN]
  | num n => cases n <;>
      simp [inferOne, throwsOn, parseFloatVal, jsIsFinite, JSNum.isNaN, JSNum.isFinite]
  | str s =>
    simp only [inferOne, throwsOn]
    split_ifs <;> simp

/-- `inferDataTypes` succeeds exactly when no listed column's sample is a
non-finite number, and the successful result tabulates the specification's
decision procedure over the columns in order. -/
theorem inferDataTypes_eq_spec (data : List Row) (cols : List String)
    (h : ∀ c ∈ cols, throwsOn (sample data c) = false) :
    inferDataTypes data cols =
      .ok (cols.map fun c => (c, specInferType (sample data c))) := by
  induction cols with
  | nil => rfl
  | cons c cs ih =>
    have hc := inferOne_eq_spec _ (h c (List.mem_cons_self c cs))
    have hcs := ih fun c2 hc2 => h c2 (List.mem_cons_of_mem _ hc2)
    simp [inferDataTypes, hc, hcs]

/-- A successful inference has exactly the requested columns as keys, in
order. -/
theorem inferDataTypes_keys (data : List Row) (cols : List String)
    (dt : List (String × DType)) (h : inferDataTypes data cols = .ok dt) :
    dt.map Prod.fst = cols := by
  induction cols generalizing dt with
  | nil =>
    simp only [inferDataTypes] at h
    cases h
    rfl
  | cons c cs ih =>
    simp only [inferDataTypes] at h
    cases hio : inferOne (sample data c) with
    | error e => rw [hio] at h; cases h
    | ok t =>
      rw [hio] at h
      cases hrec : inferDataTypes data cs with
      | error e => rw [hrec] at h; cases h
      | ok rest =>
        rw [hrec] at h
        cases h
        simp [ih rest hrec]

/-- Success of `inferDataTypes` is equivalent to all samples being safe. -/
theorem inferDataTypes_ok_iff (data : List Row) (cols : List String) :
    (∃ dt, inferDataTypes data cols = .ok dt) ↔
      ∀ c ∈ cols, throwsOn (sample data c) = false := by
  induction cols with
  | nil => simp [inferDataTypes]
  | cons c0 cs ih =>
    constructor
    · rintro ⟨dt, h⟩
      simp only [inferDataTypes] at h
      cases hio : inferOne (sample data c0) with
      | error e => rw [hio] at h; cases h
      | ok t =>
        rw [hio] at h
        cases hrec : inferDataTypes data cs with
        | error e => rw [hrec] at h; cases h
        | ok rest =>
          intro c hc
          rcases List.mem_cons.mp hc with rfl | hmem
          · by_contra hthrow
            have h2 : inferOne (sample data c) = .error () :=
              (inferOne_error_iff _).mpr (by simpa using hthrow)
            rw [h2] at hio
            cases hio
          · exact (ih.mp ⟨rest, hrec⟩) c hmem
    · intro h
      exact ⟨_, inferDataTypes_eq_spec data (c0 :: cs) h⟩

/-- The inference reads only the first row: the tail of the row sequence
never influences the result. -/
theorem inferDataTypes_first_row (r0 : Row) (rest rest2 : List Row)
    (cols : List String) :
    inferDataTypes (r0 :: rest) cols = inferDataTypes (r0 :: rest2) cols := by
  induction cols with
  | nil => rfl
  | cons c cs ih => simp [inferDataTypes, sample, ih]

/-- The keys of the first row, which the orchestrator uses as the column
name list (`Object.keys(results[0])`). -/
def headKeys : List Row → List String
  | [] => []
  | r :: _ => r.map Prod.fst

/-- A loaded row sequence on which the type inferrer cannot throw: no
sampled column value is a non-finite number. -/
def firstRowSafe (rows : List Row) : Prop :=
  ∀ c ∈ headKeys rows, throwsOn (sample rows c) = false

instance (rows : List Row) : Decidable (firstRowSafe rows) := by
  unfold firstRowSafe
  infer_instance


/-! ### Field equations of the statistics record -/

theorem statsFor_count (vs : List JSNum) : (statsFor vs).count = vs.length := rfl

theorem statsFor_sum (vs : List JSNum) :
    (statsFor vs).sum = vs.foldl JSNum.add (.fin 0) := rfl

theorem statsFor_mean (vs : List JSNum) :
    (statsFor vs).mean = (vs.foldl JSNum.add (.fin 0)).divLen vs.length := rfl

theorem statsFor_min (vs : List JSNum) :
    (statsFor vs).min = vs.foldl JSNum.min2 .posInf := rfl

theorem statsFor_max (vs : List JSNum) :
    (statsFor vs).max = vs.foldl JSNum.max2 .negInf := rfl

theorem statsFor_median (vs : List JSNum) :
    (statsFor vs).median =
      (vs.insertionSort (· ≤ ·)).getD (vs.length / 2) .nan := rfl

theorem statsFor_q1 (vs : List JSNum) :
    (statsFor vs).q1 =
      (vs.insertionSort (· ≤ ·)).getD (vs.length / 4) .nan := rfl

theorem statsFor_q3 (vs : List JSNum) :
    (statsFor vs).q3 =
      (vs.insertionSort (· ≤ ·)).getD (3 * vs.length / 4) .nan := rfl

/-- A collected subset is non-empty exactly when some row value parses to
a non-NaN number. -/
theorem collect_ne_nil_iff (data : List Row) (c : String) :
    collect data c ≠ [] ↔
      ∃ r ∈ data, (parseFloatVal (getCell r c)).isNaN = false := by
  constructor
  · intro hne
    obtain ⟨v, hv⟩ := List.exists_mem_of_ne_nil _ hne
    obtain ⟨hvm, hvp⟩ := List.mem_filter.mp hv
    obtain ⟨r, hr, rfl⟩ := List.mem_map.mp hvm
    exact ⟨r, hr, by simpa using hvp⟩
  · rintro ⟨r, hr, hnan⟩ hnil
    have hmem : parseFloatVal (getCell r c) ∈ collect data c :=
      List.mem_filter.mpr ⟨List.mem_map_of_mem _ hr, by simp [hnan]⟩
    rw [hnil] at hmem
    exact List.not_mem_nil _ hmem

/-- Every key of the statistics map is a listed column. -/
theorem mem_calcStats_keys (data : List Row) (cols : List String)
    (p : String × StatsRec) (hp : p ∈ calculateNumericStats data cols) :
    p.1 ∈ cols := by
  obtain ⟨c, hc, hfc⟩ := List.mem_filterMap.mp hp
  by_cases hE : (collect data c).isEmpty <;> simp [hE] at hfc
  rw [← hfc]
  exact hc

/-! ### Concrete inputs used by the claim instances -/

/-- Five one-column rows whose cells parse to the numeric subset
`[1, 2, 3, 4, 5]` of the specification's worked example. -/
def fiveRows : List Row := ["1", "2", "3", "4", "5"].map fun s => [("x", JSValue.str s)]

/-- The specification's type-inference examples, one column per sample;
column `"e"` is absent from the row, so its sample is `undefined`. -/
def typesRow : Row :=
  [("a", .str "42"), ("b", .str "true"), ("c", .str "2024-01-01"),
   ("d", .str "hello"), ("f", .str "0")]

/-- Columns over `typesRow`. -/
def typesCols : List String := ["a", "b", "c", "d", "e", "f"]

/-- Three one-column rows used by witness instantiations. -/
def threeRows : List Row := ["10", "20", "30"].map fun s => [("y", JSValue.str s)]

/-- Rows used by the C10 witness. -/
def wRows : List Row :=
  [[("y", JSValue.str "4")], [("y", JSValue.str "2")], [("y", JSValue.str "9")]]


/-! ### Claim theorems -/

/-- C2 (amended): provided no sampled first-row value is a non-finite
number (on such a value the inferrer throws a TypeError instead of
assigning a type), `inferDataTypes` assigns each listed column exactly one
type, computed from only the first row's value by the claimed precedence
(formalised by `specInferType`: null-ish gives unknown, then number, then
boolean, then date, then string, first match winning); the tail of the row
sequence never influences the result; and the claim's concrete samples
evaluate as stated, with `"42"` and `"0"` giving number, `"true"` giving
boolean, `"2024-01-01"` giving date, `"hello"` giving string and a missing
sample giving unknown. -/
theorem C2_type_inference :
    (∀ (data : List Row) (cols : List String),
        (∀ c ∈ cols, throwsOn (sample data c) = false) →
        inferDataTypes data cols =
          .ok (cols.map fun c => (c, specInferType (sample data c))))
    ∧ (∀ (r0 : Row) (rest rest2 : List Row) (cols : List String),
        inferDataTypes (r0 :: rest) cols = inferDataTypes (r0 :: rest2) cols)
    ∧ inferDataTypes [typesRow] typesCols =
        .ok [("a", .number), ("b", .boolean), ("c", .date), ("d", .string),
          ("e", .unknown), ("f", .number)] :=
  ⟨inferDataTypes_eq_spec, inferDataTypes_first_row, by decide⟩

/-- C2 counterexample: on a row whose only cell is the number `Infinity`,
the inferrer does not assign a type at all (the claim's precedence would
give `string`): the `toLowerCase` call of line 113 of `server.js` throws a
TypeError, modelled as `Except.error`. -/
theorem C2_counterexample :
    inferDataTypes [[("x", JSValue.num .posInf)]] ["x"] = .error () := by
  decide

/-- C2 witness: the amended theorem instantiated at a one-column row with
the numeric-string sample `"5"`. -/
theorem C2_witness :
    inferDataTypes [[("g", JSValue.str "5")]] ["g"] =
      .ok (["g"].map fun c => (c, specInferType (sample [[("g", JSValue.str "5")]] c))) :=
  C2_type_inference.1 [[("g", JSValue.str "5")]] ["g"] (by decide)

/-- C3 (amended): the collected numeric subset of a column contains only
values whose `parseFloat` is not `NaN`, in row order (it is a sublist of
the per-row parses), and every row whose value parses to a non-NaN number
contributes its parse to the subset — unparseable values are discarded
silently, with no error and no count.  Contrary to the original claim, the
filter keeps non-finite parses: `"Infinity"` parses to `Infinity`, which
is not `NaN` and therefore enters the statistics (see the
counterexample). -/
theorem C3_collection :
    ∀ (data : List Row) (c : String),
      (∀ v ∈ collect data c, v.isNaN = false)
      ∧ (collect data c).Sublist (data.map fun r => parseFloatVal (getCell r c))
      ∧ (∀ r ∈ data, (parseFloatVal (getCell r c)).isNaN = false →
          parseFloatVal (getCell r c) ∈ collect data c) := by
  intro data c
  refine ⟨collect_not_nan data c, ?_, ?_⟩
  · simp only [collect]
    exact List.filter_sublist _
  · intro r hr hnan
    exact List.mem_filter.mpr ⟨List.mem_map_of_mem _ hr, by simp [hnan]⟩

/-- C3 counterexample: a column holding only `"Infinity"` yields the
one-element numeric subset `[Infinity]`, and the non-finite value
`Infinity` fills every field of the column's statistics record — refuting
the claim that only finite parses are collected and that no non-finite
value ever enters a statistics record. -/
theorem C3_counterexample :
    collect [[("x", JSValue.str "Infinity")]] "x" = [.posInf]
    ∧ (calculateNumericStats [[("x", JSValue.str "Infinity")]] ["x"]).lookup "x" =
        some ⟨1, .posInf, .posInf, .posInf, .posInf, .posInf, .posInf, .posInf⟩
    ∧ JSNum.isFinite .posInf = false := by
  refine ⟨by decide, ?_, by decide⟩
  decide

/-- C3 witness: at a two-row column where one value parses and one does
not, the parse of the parsing row is in the collected subset. -/
theorem C3_witness :
    parseFloatVal (getCell [("z", JSValue.str "7")] "z") ∈
      collect [[("z", JSValue.str "7")], [("z", JSValue.str "n/a")]] "z" :=
  (C3_collection [[("z", JSValue.str "7")], [("z", JSValue.str "n/a")]] "z").2.2
    [("z", JSValue.str "7")] (by decide) (by decide)

/-- C4 (amended): a column has an entry in `numericStats` exactly when it
is a listed column and at least one of its values parses (by `parseFloat`)
to a non-NaN number — not necessarily a finite one, as the counterexample
shows — and every `numericStats` key is a member of the column list. -/
theorem C4_membership :
    ∀ (data : List Row) (cols : List String) (c : String),
      (((calculateNumericStats data cols).lookup c).isSome = true ↔
        c ∈ cols ∧ ∃ r ∈ data, (parseFloatVal (getCell r c)).isNaN = false)
      ∧ (((calculateNumericStats data cols).lookup c).isSome = true → c ∈ cols) := by
  intro data cols c
  have hiff : ((calculateNumericStats data cols).lookup c).isSome = true ↔
      c ∈ cols ∧ collect data c ≠ [] := by
    rw [lookup_calcStats]
    split_ifs with hcond
    · simp [hcond]
    · simp [hcond]
  have h2 := hiff.trans (and_congr_right fun _ => collect_ne_nil_iff data c)
  exact ⟨h2, fun h => (hiff.mp h).1⟩

/-- C4 counterexample: a column whose only value is `"-Infinity"` appears
in `numericStats` although none of its values parses as a finite number:
the filter admits the non-finite parse `-Infinity`. -/
theorem C4_counterexample :
    ((calculateNumericStats [[("y", JSValue.str "-Infinity")]] ["y"]).lookup "y").isSome = true
    ∧ (∀ v ∈ collect [[("y", JSValue.str "-Infinity")]] "y", v.isFinite = false) := by
  decide

/-- C4 witness: the amended membership applied to a column with the
parseable value `"3"`. -/
theorem C4_witness :
    ((calculateNumericStats [[("w", JSValue.str "3")]] ["w"]).lookup "w").isSome = true :=
  (C4_membership [[("w", JSValue.str "3")]] ["w"] "w").1.mpr (by decide)

/-- C5 (amended): `calculateNumericStats` is total (in the model it is a
plain function, and every entry it returns is keyed by a listed column),
but `inferDataTypes` is not: it returns a result exactly when no listed
column's first-row sample is a non-finite number, and throws a TypeError
otherwise — refuting the claim that both functions never fail on numbers
including non-finite ones (see the counterexample). -/
theorem C5_totality :
    (∀ (data : List Row) (cols : List String),
        (∃ dt, inferDataTypes data cols = .ok dt) ↔
          ∀ c ∈ cols, throwsOn (sample data c) = false)
    ∧ (∀ (data : List Row) (cols : List String) (p : String × StatsRec),
        p ∈ calculateNumericStats data cols → p.1 ∈ cols) :=
  ⟨inferDataTypes_ok_iff, mem_calcStats_keys⟩

/-- C5 counterexample: a cell holding the number `NaN` makes
`inferDataTypes` throw (the `toLowerCase` call of line 113 of `server.js`
is reached with a non-string receiver), so the inferrer is not total. -/
theorem C5_counterexample :
    inferDataTypes [[("x", JSValue.num .nan)]] ["x"] = .error () := by
  decide

/-- C5 witness: the success characterisation instantiated at a boolean
cell, a value type on which inference never throws. -/
theorem C5_witness :
    ∃ dt, inferDataTypes [[("h", JSValue.boolean true)]] ["h"] = .ok dt :=
  (C5_totality.1 [[("h", JSValue.boolean true)]] ["h"]).mpr (by decide)


/-- C6 (amended): the orchestrator propagates every loader failure
unchanged as a `LoadError` and never returns a partial result; on loaded
rows it returns a complete Analysis Result whenever no first-row cell is a
non-finite number — missing values, non-numeric cells and empty tables are
all normal data — but on a non-finite numeric first-row cell the core
raises a TypeError (not a LoadError), so `LoadError` is only error kind
the core raises on throw-safe rows, not on all inputs as claimed. -/
theorem C6_error_model :
    (∀ e : String, analyze (.error e) = .error (.load e))
    ∧ (∀ rows : List Row, firstRowSafe rows → ∃ res, analyze (.ok rows) = .ok res)
    ∧ (∀ (rows : List Row) (err : JSErr), analyze (.ok rows) = .error err →
        err = .typeErr ∧ ¬firstRowSafe rows) := by
  refine ⟨fun e => rfl, ?_, ?_⟩
  · intro rows hsafe
    cases rows with
    | nil => exact ⟨_, rfl⟩
    | cons r rs =>
      obtain ⟨dt, hdt⟩ :=
        (inferDataTypes_ok_iff (r :: rs) (r.map Prod.fst)).mpr hsafe
      refine ⟨⟨(r :: rs).length, (r.map Prod.fst).length, r.map Prod.fst, some dt,
        some (calculateNumericStats (r :: rs) (r.map Prod.fst)), (r :: rs).take 5⟩, ?_⟩
      simp [analyze, analyzeTable, hdt]
  · intro rows err h
    cases rows with
    | nil => simp [analyze, analyzeTable] at h
    | cons r rs =>
      simp only [analyze, analyzeTable] at h
      cases hdt : inferDataTypes (r :: rs) (r.map Prod.fst) with
      | ok dt => rw [hdt] at h; simp at h
      | error e =>
        rw [hdt] at h
        have herr : err = .typeErr := (Except.error.inj h).symm
        refine ⟨herr, fun hsafe => ?_⟩
        obtain ⟨dt, hdt2⟩ :=
          (inferDataTypes_ok_iff (r :: rs) (r.map Prod.fst)).mpr hsafe
        rw [hdt] at hdt2
        cases hdt2

/-- C6 counterexample: loaded rows whose first cell is the number
`-Infinity` make the analysis fail with a TypeError, which is not a
`LoadError` (`.load` and `.typeErr` are distinct constructors of `JSErr`),
refuting the claim that `LoadError` is the only error kind the core
raises. -/
theorem C6_counterexample :
    analyze (.ok [[("x", JSValue.num .negInf)]]) = .error .typeErr := by
  decide

/-- C6 witness: a loader error is propagated unchanged, and rows full of
anomalies (a non-numeric cell, a null cell, a missing-value second row)
still analyse to a complete result. -/
theorem C6_witness :
    analyze (.error "bad stream") = .error (.load "bad stream")
    ∧ ∃ res, analyze (.ok [[("a", JSValue.str "hi"), ("b", JSValue.null)], []]) = .ok res :=
  ⟨C6_error_model.1 "bad stream",
    C6_error_model.2.1 [[("a", JSValue.str "hi"), ("b", JSValue.null)], []] (by decide)⟩

/-- C7 (amended): a source yielding zero data rows analyses successfully
to the reduced result with `rows = 0`, `columns = 0`, empty column names
and empty preview — but, contrary to the original claim, the returned
object carries no `dataTypes` and no `numericStats` fields at all (lines
54-57 and 82-89 of `server.js` build the early-return object without
them), rather than carrying them as empty maps. -/
theorem C7_empty_result :
    analyze (.ok []) = .ok ⟨0, 0, [], none, none, []⟩ := by
  decide

/-- C7 counterexample: the zero-row result is not of the claimed shape:
there are no maps `dt`, `ns` with which it carries `dataTypes` and
`numericStats` fields, because both fields are absent. -/
theorem C7_counterexample :
    ¬ ∃ dt ns, analyzeTable [] = .ok ⟨0, 0, [], some dt, some ns, []⟩ := by
  rintro ⟨dt, ns, h⟩
  have h0 : analyzeTable [] = .ok ⟨0, 0, [], none, none, []⟩ := rfl
  rw [h0] at h
  simp at h

/-- C8 (amended): in every Analysis Result the core produces, the length
of `columnNames` equals `columnCount`, and whenever the `dataTypes` field
is present its keys are exactly the column name list in order — one type
per column, no extras, no omissions.  The field is present for every
non-empty input; for a zero-row source (contrary to the original claim)
the result has no `dataTypes` at all, with an empty column list. -/
theorem C8_schema :
    ∀ (results : List Row) (res : AnalysisResult),
      analyzeTable results = .ok res →
      res.columnNames.length = res.columns
      ∧ (∀ dt, res.dataTypes = some dt → dt.map Prod.fst = res.columnNames)
      ∧ (results ≠ [] → ∃ dt, res.dataTypes = some dt)
      ∧ (results = [] → res.columnNames = [] ∧ res.dataTypes = none) := by
  intro results res h
  cases results with
  | nil =>
    simp only [analyzeTable, Except.ok.injEq] at h
    subst h
    exact ⟨rfl, by simp, fun hne => absurd rfl hne, fun _ => ⟨rfl, rfl⟩⟩
  | cons r rs =>
    simp only [analyzeTable] at h
    cases hdt : inferDataTypes (r :: rs) (r.map Prod.fst) with
    | error e => rw [hdt] at h; simp at h
    | ok dt =>
      rw [hdt] at h
      simp only [Except.ok.injEq] at h
      subst h
      refine ⟨rfl, ?_, fun _ => ⟨dt, rfl⟩, fun hnil => absurd hnil (by simp)⟩
      intro dt2 hdt2
      have hdd : dt2 = dt := (Option.some.inj hdt2).symm
      subst hdd
      exact inferDataTypes_keys (r :: rs) (r.map Prod.fst) dt2 hdt

/-- C8 counterexample: at the zero-row input the produced result has no
`dataTypes` map whose key set could equal the column name list — the
field is absent — so the claimed equality cannot hold for every input
including zero-row sources. -/
theorem C8_counterexample :
    analyzeTable [] = .ok ⟨0, 0, [], none, none, []⟩
    ∧ ¬ ∃ dt, AnalysisResult.dataTypes ⟨0, 0, [], none, none, []⟩ = some dt := by
  refine ⟨rfl, ?_⟩
  rintro ⟨dt, h⟩
  exact Option.noConfusion h

/-- C8 witness: the amended schema invariant applied to a one-row table. -/
theorem C8_witness :
    ∃ dt, (AnalysisResult.mk 1 1 ["x"] (some [("x", DType.number)])
        (some (calculateNumericStats [[("x", JSValue.str "1")]] ["x"]))
        [[("x", JSValue.str "1")]]).dataTypes = some dt :=
  (C8_schema [[("x", JSValue.str "1")]] _ rfl).2.2.1 (by simp)

/-- C9: in every Analysis Result the core produces, the preview has
length `min(5, rowCount)` and its elements are exactly the first rows of
the loaded sequence, verbatim and in source order; the row count is the
loaded length. -/
theorem C9_preview :
    ∀ (results : List Row) (res : AnalysisResult),
      analyzeTable results = .ok res →
      res.rows = results.length
      ∧ res.preview.length = min 5 results.length
      ∧ ∀ (i : ℕ) (h1 : i < res.preview.length) (h2 : i < results.length),
          res.preview.get ⟨i, h1⟩ = results.get ⟨i, h2⟩ := by
  intro results res h
  cases results with
  | nil =>
    simp only [analyzeTable, Except.ok.injEq] at h
    subst h
    refine ⟨rfl, by simp, ?_⟩
    intro i h1 h2
    exact absurd h2 (by simp)
  | cons r rs =>
    simp only [analyzeTable] at h
    cases hdt : inferDataTypes (r :: rs) (r.map Prod.fst) with
    | error e => rw [hdt] at h; simp at h
    | ok dt =>
      rw [hdt] at h
      simp only [Except.ok.injEq] at h
      subst h
      refine ⟨rfl, ?_, ?_⟩
      · simp only [List.length_take]
      · intro i h1 h2
        simp only [List.get_eq_getElem]
        exact List.getElem_take (r :: rs)

/-- C9 witness: the preview facts instantiated at a two-row table. -/
theorem C9_witness :
    (AnalysisResult.mk 2 1 ["y"] (some [("y", DType.number)])
        (some (calculateNumericStats [[("y", JSValue.str "10")], [("y", JSValue.str "20")]] ["y"]))
        [[("y", JSValue.str "10")], [("y", JSValue.str "20")]]).preview.length =
      min 5 [[("y", JSValue.str "10")], [("y", JSValue.str "20")]].length :=
  (C9_preview [[("y", JSValue.str "10")], [("y", JSValue.str "20")]] _ rfl).2.1


/-- C1: whenever `calculateNumericStats` returns a record for a column,
the record's count is the size of the collected numeric subset, its sum is
the left fold of JS addition over the subset (and over any ascending
reordering of it), its mean is the sum divided by the count, its min and
max are members of the subset bounding it below and above, and — for any
ascending-sorted permutation `l` of the subset — its median, q1 and q3 are
`l[⌊n/2⌋]`, `l[⌊n*0.25⌋]` and `l[⌊n*0.75⌋]` under zero-based indexing with
no interpolation (the natural-number indices `n / 2`, `n / 4` and
`3 * n / 4` agree with the JS floor expressions for every possible array
length).  In particular, for the subset `[1, 2, 3, 4, 5]` the record is
`count = 5`, `mean = 3`, `min = 1`, `max = 5`, `sum = 15`, `median = 3`,
`q1 = 2`, `q3 = 4`. -/
theorem C1_record :
    (∀ (data : List Row) (cols : List String) (c : String) (rec : StatsRec),
        (calculateNumericStats data cols).lookup c = some rec →
        rec.count = (collect data c).length
        ∧ rec.sum = (collect data c).foldl JSNum.add (.fin 0)
        ∧ rec.mean = rec.sum.divLen rec.count
        ∧ rec.min ∈ collect data c
        ∧ (∀ v ∈ collect data c, rec.min ≤ v)
        ∧ rec.max ∈ collect data c
        ∧ (∀ v ∈ collect data c, v ≤ rec.max)
        ∧ (∀ l, (collect data c).Perm l → l.Sorted (· ≤ ·) →
            rec.sum = l.foldl JSNum.add (.fin 0)
            ∧ rec.median = l.getD ((collect data c).length / 2) .nan
            ∧ rec.q1 = l.getD ((collect data c).length / 4) .nan
            ∧ rec.q3 = l.getD (3 * (collect data c).length / 4) .nan))
    ∧ calculateNumericStats fiveRows ["x"] =
        [("x", ⟨5, .fin 3, .fin 1, .fin 5, .fin 15, .fin 3, .fin 2, .fin 4⟩)] := by
  constructor
  · intro data cols c rec hlook
    rw [lookup_calcStats] at hlook
    split_ifs at hlook with hcond
    · obtain ⟨hmem, hne⟩ := hcond
      have hrec : rec = statsFor (collect data c) := (Option.some.inj hlook).symm
      subst hrec
      have hfree := collect_not_nan data c
      obtain ⟨hminmem, hminle⟩ := foldl_min2_posInf (collect data c) hne hfree
      obtain ⟨hmaxmem, hmaxle⟩ := foldl_max2_negInf (collect data c) hne hfree
      refine ⟨rfl, rfl, rfl, ?_, ?_, ?_, ?_, ?_⟩
      · rw [statsFor_min]; exact hminmem
      · rw [statsFor_min]; exact hminle
      · rw [statsFor_max]; exact hmaxmem
      · rw [statsFor_max]; exact hmaxle
      · intro l hp hs
        have hleq := sorted_perm_eq_insertionSort (collect data c) l hp hs
        subst hleq
        refine ⟨?_, rfl, rfl, rfl⟩
        rw [statsFor_sum]
        exact ((List.perm_insertionSort (· ≤ ·) (collect data c)).symm).foldl_eq _
  · have hcol : collect fiveRows "x" = [.fin 1, .fin 2, .fin 3, .fin 4, .fin 5] := by
      decide
    have hsum : ([JSNum.fin 1, .fin 2, .fin 3, .fin 4, .fin 5]).foldl JSNum.add (.fin 0) =
        .fin 15 := by
      simp [JSNum.add]
      norm_num
    have hmean : (statsFor [JSNum.fin 1, .fin 2, .fin 3, .fin 4, .fin 5]).mean = .fin 3 := by
      rw [statsFor_mean, hsum]
      show JSNum.divLen (.fin 15) 5 = .fin 3
      simp [JSNum.divLen]
      norm_num
    have hs : (statsFor [JSNum.fin 1, .fin 2, .fin 3, .fin 4, .fin 5]).sum = .fin 15 := by
      rw [statsFor_sum, hsum]
    have hcnt : (statsFor [JSNum.fin 1, .fin 2, .fin 3, .fin 4, .fin 5]).count = 5 := by
      decide
    have hmn : (statsFor [JSNum.fin 1, .fin 2, .fin 3, .fin 4, .fin 5]).min = .fin 1 := by
      decide
    have hmx : (statsFor [JSNum.fin 1, .fin 2, .fin 3, .fin 4, .fin 5]).max = .fin 5 := by
      decide
    have hmd : (statsFor [JSNum.fin 1, .fin 2, .fin 3, .fin 4, .fin 5]).median = .fin 3 := by
      decide
    have hq1 : (statsFor [JSNum.fin 1, .fin 2, .fin 3, .fin 4, .fin 5]).q1 = .fin 2 := by
      decide
    have hq3 : (statsFor [JSNum.fin 1, .fin 2, .fin 3, .fin 4, .fin 5]).q3 = .fin 4 := by
      decide
    have hrec : statsFor [JSNum.fin 1, .fin 2, .fin 3, .fin 4, .fin 5] =
        (⟨5, .fin 3, .fin 1, .fin 5, .fin 15, .fin 3, .fin 2, .fin 4⟩ : StatsRec) := by
      have he : statsFor [JSNum.fin 1, .fin 2, .fin 3, .fin 4, .fin 5] =
          ⟨(statsFor [JSNum.fin 1, .fin 2, .fin 3, .fin 4, .fin 5]).count,
           (statsFor [JSNum.fin 1, .fin 2, .fin 3, .fin 4, .fin 5]).mean,
           (statsFor [JSNum.fin 1, .fin 2, .fin 3, .fin 4, .fin 5]).min,
           (statsFor [JSNum.fin 1, .fin 2, .fin 3, .fin 4, .fin 5]).max,
           (statsFor [JSNum.fin 1, .fin 2, .fin 3, .fin 4, .fin 5]).sum,
           (statsFor [JSNum.fin 1, .fin 2, .fin 3, .fin 4, .fin 5]).median,
           (statsFor [JSNum.fin 1, .fin 2, .fin 3, .fin 4, .fin 5]).q1,
           (statsFor [JSNum.fin 1, .fin 2, .fin 3, .fin 4, .fin 5]).q3⟩ := rfl
      rw [he, hcnt, hmean, hmn, hmx, hs, hmd, hq1, hq3]
    have hstep : calculateNumericStats fiveRows ["x"] =
        [("x", statsFor (collect fiveRows "x"))] := rfl
    rw [hstep, hcol, hrec]


/-- C1 witness: the record properties instantiated at a three-row column,
with the lookup hypothesis discharged by computation. -/
theorem C1_witness :
    (statsFor (collect threeRows "y")).count = (collect threeRows "y").length
    ∧ (statsFor (collect threeRows "y")).min ∈ collect threeRows "y" := by
  have h := C1_record.1 threeRows ["y"] "y" (statsFor (collect threeRows "y")) rfl
  exact ⟨h.1, h.2.2.2.1⟩

/-- C10: for every column of `numericStats` whose collected values are all
finite, the record has `count ≥ 1` and its fields are ordered
`min ≤ q1 ≤ median ≤ q3 ≤ max`: the three percentile indices
`⌊n/4⌋ ≤ ⌊n/2⌋ ≤ ⌊3n/4⌋` select from the ascending-sorted subset, whose
least element bounds them below and greatest element above. -/
theorem C10_ordering :
    ∀ (data : List Row) (cols : List String) (c : String) (rec : StatsRec),
      (calculateNumericStats data cols).lookup c = some rec →
      (∀ v ∈ collect data c, v.isFinite = true) →
      1 ≤ rec.count ∧ rec.min ≤ rec.q1 ∧ rec.q1 ≤ rec.median
        ∧ rec.median ≤ rec.q3 ∧ rec.q3 ≤ rec.max := by
  intro data cols c rec hlook hfin
  rw [lookup_calcStats] at hlook
  split_ifs at hlook with hcond
  obtain ⟨hmemc, hne⟩ := hcond
  have hrec : rec = statsFor (collect data c) := (Option.some.inj hlook).symm
  subst hrec
  have hfree := collect_not_nan data c
  have hn : 0 < (collect data c).length := List.length_pos.mpr hne
  have hperm := List.perm_insertionSort (· ≤ ·) (collect data c)
  have hSlen : ((collect data c).insertionSort (· ≤ ·)).length =
      (collect data c).length := hperm.length_eq
  have hsorted := List.sorted_insertionSort (· ≤ ·) (collect data c)
  have hi1 : (collect data c).length / 4 <
      ((collect data c).insertionSort (· ≤ ·)).length := by
    rw [hSlen]; omega
  have hi2 : (collect data c).length / 2 <
      ((collect data c).insertionSort (· ≤ ·)).length := by
    rw [hSlen]; omega
  have hi3 : 3 * (collect data c).length / 4 <
      ((collect data c).insertionSort (· ≤ ·)).length := by
    rw [hSlen]; omega
  have hmono : ∀ (i j : ℕ) (hi : i < ((collect data c).insertionSort (· ≤ ·)).length)
      (hj : j < ((collect data c).insertionSort (· ≤ ·)).length), i ≤ j →
      ((collect data c).insertionSort (· ≤ ·)).get ⟨i, hi⟩ ≤
        ((collect data c).insertionSort (· ≤ ·)).get ⟨j, hj⟩ := by
    intro i j hi hj hij
    exact hsorted.rel_get_of_le (Fin.mk_le_mk.mpr hij)
  obtain ⟨hminmem, hminle⟩ := foldl_min2_posInf (collect data c) hne hfree
  obtain ⟨hmaxmem, hmaxle⟩ := foldl_max2_negInf (collect data c) hne hfree
  refine ⟨?_, ?_, ?_, ?_, ?_⟩
  · rw [statsFor_count]; omega
  · rw [statsFor_min, statsFor_q1, List.getD_eq_getElem _ _ hi1]
    apply hminle
    exact hperm.mem_iff.mp (List.getElem_mem hi1)
  · rw [statsFor_q1, statsFor_median, List.getD_eq_getElem _ _ hi1,
      List.getD_eq_getElem _ _ hi2]
    exact hmono _ _ hi1 hi2 (by omega)
  · rw [statsFor_median, statsFor_q3, List.getD_eq_getElem _ _ hi2,
      List.getD_eq_getElem _ _ hi3]
    exact hmono _ _ hi2 hi3 (by omega)
  · rw [statsFor_q3, statsFor_max, List.getD_eq_getElem _ _ hi3]
    apply hmaxle
    exact hperm.mem_iff.mp (List.getElem_mem hi3)

/-- C10 witness: the ordering chain at a concrete all-finite three-value
column, with both hypotheses discharged by computation. -/
theorem C10_witness :
    1 ≤ (statsFor (collect wRows "y")).count
    ∧ (statsFor (collect wRows "y")).min ≤ (statsFor (collect wRows "y")).q1
    ∧ (statsFor (collect wRows "y")).q1 ≤ (statsFor (collect wRows "y")).median
    ∧ (statsFor (collect wRows "y")).median ≤ (statsFor (collect wRows "y")).q3
    ∧ (statsFor (collect wRows "y")).q3 ≤ (statsFor (collect wRows "y")).max :=
  C10_ordering wRows ["y"] "y" (statsFor (collect wRows "y")) rfl (by decide)

end AIA
